import Mathlib

/-!
Shallow embedding of the algorithmic core of the lkw-schnellladenetz
repository: break segmentation (pausenkoordinaten.py, function main,
steps 6a and 6b) and facility assignment (pausenzuordnung.py, function
assign_breaks_to_points).  Python floats are modelled as rationals,
Python dicts as association lists (a missing key raises KeyError, which
is modelled by an error value that aborts the computation), and the
global NumPy random source as an explicitly passed stream of jitter
draws indexed by a running draw counter.
-/

/-- First-match lookup in an association list, modelling access to a
Python dict built with unique keys; none models a KeyError. -/
def alistLookup {α : Type} (k : Nat) : List (Nat × α) → Option α
  | [] => none
  | (k2, v) :: rest => if k = k2 then some v else alistLookup k rest

/-- Break categories: the strings short and long written into the
Break_Type column by pausenkoordinaten.py. -/
inductive BreakType where
  | short
  | long
deriving DecidableEq, Repr

/-- The lookup dictionaries built in step 4 of pausenkoordinaten.main:
dict_edge_length (edge id to length), dict_edge_node_b (edge id to
terminal node id), dict_node_lat and dict_node_lon (node id to
coordinates).  Association lists with first-match lookup model the
Python dicts (keys are assumed unique, as Network_Edge_ID and
Network_Node_ID are in the data). -/
structure NetworkLookup where
  edgeLength : List (Nat × ℚ)
  edgeNodeB : List (Nat × Nat)
  nodeLat : List (Nat × ℚ)
  nodeLon : List (Nat × ℚ)
deriving DecidableEq, Repr

/-- One row of a filtered traffic-flow frame, as consumed by the
segmentation loops: the decoded edge path (Edge_path_E_road), the
distance already covered before the first edge
(Distance_from_origin_region_to_E_road) and the truck count
(Traffic_flow_trucks_2030). -/
structure Trip where
  edgePath : List Nat
  entryDistance : ℚ
  vehicleCount : ℚ
deriving DecidableEq, Repr

/-- One row appended to dict_break: Trip_ID, Driver, Break_Nr,
Break_Type, Edge, Edge_length, Node_B, Latitude_B, Longitude_B and
Break_Number (the truck count of the trip). -/
structure BreakEvent where
  tripId : Nat
  driver : Nat
  breakNr : Nat
  breakType : BreakType
  edge : Nat
  edgeLength : ℚ
  nodeB : Nat
  latB : ℚ
  lonB : ℚ
  vehicleCount : ℚ
deriving DecidableEq, Repr

/-- A Python KeyError carrying the missing dictionary key.  It
propagates out of the segmentation loops and aborts the whole run. -/
inductive SegError where
  | keyError (key : Nat)
deriving DecidableEq, Repr

/-- Single-driver break-type rule (pausenkoordinaten.py lines 150-153):
short when the break counter is odd, long when it is even. -/
def singleType (b : Nat) : BreakType :=
  if b % 2 = 1 then BreakType.short else BreakType.long

/-- Double-driver break-type rule (lines 194-199): short while the
short-run counter breaks_reset is at most 2, long otherwise. -/
def doubleType (r : Nat) : BreakType :=
  if r ≤ 2 then BreakType.short else BreakType.long

/-- Update of the breaks_reset counter in the double-driver loop:
incremented on a short break, reset to 0 on a long break. -/
def doubleNext (r : Nat) : Nat :=
  if r ≤ 2 then r + 1 else 0

/-- The inner loop of step 6a of pausenkoordinaten.main for one
single-driver trip.  Arguments after the fixed data: remaining edge
path, travel_distance, breaks counter, and the index of the next draw
from the shared random stream (one jitter draw per edge-boundary
check, np.random.randint(-50, 50)).  Returns the emitted events in
order together with the draw counter after the trip, or the first
KeyError hit. -/
def segEdgesSingle (lk : NetworkLookup) (thr : ℚ) (rng : Nat → Int) (tid : Nat) (vc : ℚ) :
    List Nat → ℚ → Nat → Nat → Except SegError (List BreakEvent × Nat)
  | [], _, _, draw => Except.ok ([], draw)
  | e :: rest, travel, brks, draw =>
    match alistLookup e lk.edgeLength with
    | none => Except.error (SegError.keyError e)
    | some len =>
      if travel + len > thr + (rng draw : ℚ) then
        match alistLookup e lk.edgeNodeB with
        | none => Except.error (SegError.keyError e)
        | some nb =>
          match alistLookup nb lk.nodeLat with
          | none => Except.error (SegError.keyError nb)
          | some la =>
            match alistLookup nb lk.nodeLon with
            | none => Except.error (SegError.keyError nb)
            | some lo =>
              match segEdgesSingle lk thr rng tid vc rest 0 (brks + 1) (draw + 1) with
              | Except.error err => Except.error err
              | Except.ok (evs, dEnd) =>
                Except.ok
                  (⟨tid, 1, brks + 1, singleType (brks + 1), e, len, nb, la, lo, vc⟩ :: evs,
                    dEnd)
      else
        segEdgesSingle lk thr rng tid vc rest (travel + len) brks (draw + 1)

/-- The inner loop of step 6b for one double-driver trip; identical to
the single-driver loop except for the Driver column and the
breaks_reset counter governing the break type. -/
def segEdgesDouble (lk : NetworkLookup) (thr : ℚ) (rng : Nat → Int) (tid : Nat) (vc : ℚ) :
    List Nat → ℚ → Nat → Nat → Nat → Except SegError (List BreakEvent × Nat)
  | [], _, _, _, draw => Except.ok ([], draw)
  | e :: rest, travel, brks, rst, draw =>
    match alistLookup e lk.edgeLength with
    | none => Except.error (SegError.keyError e)
    | some len =>
      if travel + len > thr + (rng draw : ℚ) then
        match alistLookup e lk.edgeNodeB with
        | none => Except.error (SegError.keyError e)
        | some nb =>
          match alistLookup nb lk.nodeLat with
          | none => Except.error (SegError.keyError nb)
          | some la =>
            match alistLookup nb lk.nodeLon with
            | none => Except.error (SegError.keyError nb)
            | some lo =>
              match segEdgesDouble lk thr rng tid vc rest 0 (brks + 1) (doubleNext rst) (draw + 1) with
              | Except.error err => Except.error err
              | Except.ok (evs, dEnd) =>
                Except.ok
                  (⟨tid, 2, brks + 1, doubleType rst, e, len, nb, la, lo, vc⟩ :: evs,
                    dEnd)
      else
        segEdgesDouble lk thr rng tid vc rest (travel + len) brks rst (draw + 1)

/-- Segmentation of one single-driver trip: travel_distance starts at
the entry distance, the breaks counter at 0 (lines 131-132). -/
def segmentTripSingle (lk : NetworkLookup) (thr : ℚ) (rng : Nat → Int) (tid : Nat)
    (t : Trip) (draw : Nat) : Except SegError (List BreakEvent × Nat) :=
  segEdgesSingle lk thr rng tid t.vehicleCount t.edgePath t.entryDistance 0 draw

/-- Segmentation of one double-driver trip: breaks and breaks_reset
both start at 0 (lines 173-175). -/
def segmentTripDouble (lk : NetworkLookup) (thr : ℚ) (rng : Nat → Int) (tid : Nat)
    (t : Trip) (draw : Nat) : Except SegError (List BreakEvent × Nat) :=
  segEdgesDouble lk thr rng tid t.vehicleCount t.edgePath t.entryDistance 0 0 draw

/-- The outer loop of step 6a over all single-driver trips, numbering
trips by their enumerate index and threading the shared random draw
counter from trip to trip.  A KeyError raised inside any trip
propagates and ends the whole loop. -/
def segmentBatchSingle (lk : NetworkLookup) (thr : ℚ) (rng : Nat → Int) :
    List Trip → Nat → Nat → Except SegError (List BreakEvent × Nat)
  | [], _, draw => Except.ok ([], draw)
  | t :: ts, idx, draw =>
    match segmentTripSingle lk thr rng idx t draw with
    | Except.error err => Except.error err
    | Except.ok (evs, dMid) =>
      match segmentBatchSingle lk thr rng ts (idx + 1) dMid with
      | Except.error err => Except.error err
      | Except.ok (evsRest, dEnd) => Except.ok (evs ++ evsRest, dEnd)

/-- The outer loop of step 6b over all double-driver trips. -/
def segmentBatchDouble (lk : NetworkLookup) (thr : ℚ) (rng : Nat → Int) :
    List Trip → Nat → Nat → Except SegError (List BreakEvent × Nat)
  | [], _, draw => Except.ok ([], draw)
  | t :: ts, idx, draw =>
    match segmentTripDouble lk thr rng idx t draw with
    | Except.error err => Except.error err
    | Except.ok (evs, dMid) =>
      match segmentBatchDouble lk thr rng ts (idx + 1) dMid with
      | Except.error err => Except.error err
      | Except.ok (evsRest, dEnd) => Except.ok (evs ++ evsRest, dEnd)

/-- Step 6 of pausenkoordinaten.main: the single-driver loop runs
first, then the double-driver loop, both drawing from the same global
random stream; the collected dict_break rows are the events of both
loops in emission order. -/
def segmentAll (lk : NetworkLookup) (thr : ℚ) (rng : Nat → Int)
    (singles doubles : List Trip) : Except SegError (List BreakEvent) :=
  match segmentBatchSingle lk thr rng singles 0 0 with
  | Except.error err => Except.error err
  | Except.ok (evs1, dMid) =>
    match segmentBatchDouble lk thr rng doubles 0 dMid with
    | Except.error err => Except.error err
    | Except.ok (evs2, _) => Except.ok (evs1 ++ evs2)

/-- A point in the projected plane (the EPSG:32632 coordinates used by
pausenzuordnung.py after to_crs). -/
structure Point where
  x : ℚ
  y : ℚ
deriving DecidableEq, Repr

/-- The candidate facilities consumed by assign_breaks_to_points:
gdf_ausschreibung_kreis is the row list of facility centers with one
shared circular buffer radius applied to every row
(create_geodataframes line 86, CONFIG BUFFER_RADIUS). -/
structure Catchments where
  centers : List Point
  radius : ℚ
deriving DecidableEq, Repr

/-- One break row consumed by assign_breaks_to_points: its point
geometry and its Break_Number truck count. -/
structure BreakPoint where
  loc : Point
  count : ℚ
deriving DecidableEq, Repr

/-- Squared Euclidean distance between two points.  The source compares
true Euclidean distances of a point against discs that all share one
radius; both disc containment (distance to center below the radius)
and the argmin with its tie pattern over point-to-disc distances are
preserved when every distance is replaced by the squared distance to
the center, so the embedding works with squared center distances
throughout. -/
def sqDist (p q : Point) : ℚ :=
  (p.x - q.x) ^ 2 + (p.y - q.y) ^ 2

/-- The test polygons_kreis.contains(point_geom) for facility index i:
the point lies strictly inside the buffer disc around center i
(shapely contains is strict interior membership). -/
def containsIdx (cat : Catchments) (p : Point) (i : Nat) : Bool :=
  decide (sqDist p (cat.centers.getD i ⟨0, 0⟩) < cat.radius ^ 2)

/-- np.where(contained)[0] (line 143): the increasing list of facility
indices whose buffer disc contains the point. -/
def containedIndices (cat : Catchments) (p : Point) : List Nat :=
  (List.range cat.centers.length).filter (containsIdx cat p)

/-- polygons_kreis.distance(point_geom) (line 147): the distances from
the point to the facilities, indexed like the facility list (squared
center distances, see sqDist). -/
def distList (cat : Catchments) (p : Point) : List ℚ :=
  cat.centers.map (sqDist p)

/-- pandas Series.idxmin (line 148): index of the first occurrence of
the minimal value; none models the ValueError raised on an empty
series. -/
def firstMinIdx : List ℚ → Option Nat
  | [] => none
  | x :: xs =>
    match firstMinIdx xs with
    | none => some 0
    | some k => if xs.getD k 0 < x then some (k + 1) else some 0

/-- results_breaks[j] += break_count (lines 149, 155, 170): add c to
entry j of the running counter list. -/
def addAt (l : List ℚ) (j : Nat) (c : ℚ) : List ℚ :=
  l.set j (l.getD j 0 + c)

/-- The selection loop of the multiple-containment branch (lines
159-168): min_ratio_value starts at float inf (modelled by none) and
selected_kreis at Python None; every contained index whose current
counter lies strictly below the running minimum becomes the new
selection. -/
def selLoop (results : List ℚ) : List Nat → Option ℚ → Option Nat → Option Nat
  | [], _, sel => sel
  | j :: js, mv, sel =>
    match mv with
    | none => selLoop results js (some (results.getD j 0)) (some j)
    | some m =>
      if results.getD j 0 < m then selLoop results js (some (results.getD j 0)) (some j)
      else selLoop results js (some m) sel

/-- Python runtime errors that can escape assign_breaks_to_points: the
ValueError of Series.idxmin on an empty series, and the TypeError of
list indexing with selected_kreis = None. -/
inductive AssignError where
  | emptyIdxmin
  | noneSelected
deriving DecidableEq, Repr

/-- One iteration of the event loop of assign_breaks_to_points (lines
134-170): containment test, then one of the three branches — nearest
fallback on empty containment, direct assignment on unique
containment, greedy minimum among the contained indices otherwise. -/
def assignStep (cat : Catchments) (results : List ℚ) (ev : BreakPoint) :
    Except AssignError (List ℚ) :=
  match containedIndices cat ev.loc with
  | [] =>
    match firstMinIdx (distList cat ev.loc) with
    | none => Except.error AssignError.emptyIdxmin
    | some j => Except.ok (addAt results j ev.count)
  | [j] => Except.ok (addAt results j ev.count)
  | js =>
    match selLoop results js none none with
    | none => Except.error AssignError.noneSelected
    | some j => Except.ok (addAt results j ev.count)

/-- The loop over all break rows of one pass, threading the mutated
results_breaks list from event to event. -/
def assignPass (cat : Catchments) : List ℚ → List BreakPoint → Except AssignError (List ℚ)
  | results, [] => Except.ok results
  | results, ev :: evs =>
    match assignStep cat results ev with
    | Except.error err => Except.error err
    | Except.ok updated => assignPass cat updated evs

/-- assign_breaks_to_points: the counters start at
[0]*len(gdf_ausschreibung) (line 125) and the final counter list is
returned as the per-facility series of the pass. -/
def assign_breaks_to_points (cat : Catchments) (evs : List BreakPoint) :
    Except AssignError (List ℚ) :=
  assignPass cat (List.replicate cat.centers.length 0) evs

/-! Concrete instances used by scenario theorems and witnesses. -/

/-- A three-edge network whose edges all have length 200 km. -/
def lkC9 : NetworkLookup :=
  { edgeLength := [(1, 200), (2, 200), (3, 200)]
    edgeNodeB := [(1, 10), (2, 11), (3, 12)]
    nodeLat := [(10, 50), (11, 51), (12, 52)]
    nodeLon := [(10, 8), (11, 9), (12, 10)] }

/-- The trip of the spec scenario: edge lengths [200, 200, 200],
entry distance 0. -/
def tripC9 : Trip := ⟨[1, 2, 3], 0, 4⟩

/-- A network with one known edge (1, length 200, both endpoints at
node 10) and one break-forcing edge (2, length 500). -/
def lkCE : NetworkLookup :=
  { edgeLength := [(1, 200), (2, 500)]
    edgeNodeB := [(1, 10), (2, 10)]
    nodeLat := [(10, 50)]
    nodeLon := [(10, 8)] }

/-- A trip whose first edge id 99 is absent from lkCE. -/
def badTrip : Trip := ⟨[99, 1], 0, 1⟩

/-- A well-formed trip over lkCE that forces one break (500 > 360). -/
def goodTrip : Trip := ⟨[2], 0, 7⟩

/-- Claim C9: scenario of §8 of the spec — a single-driver trip with
edge lengths [200, 200, 200] km, threshold 360 km, jitter fixed to 0
and entry distance 0 emits exactly one break event, of type short,
triggered at the end of the second edge (after edge 1 the traveled
200 does not exceed 360; after edge 2 the traveled 400 does, the
break fires and traveled resets to 0; after edge 3 the traveled 200
does not, and no event is forced at the end of the path). -/
theorem scenario_one_short_break :
    segmentAll lkC9 360 (fun _ => 0) [tripC9] [] =
      Except.ok [⟨0, 1, 1, BreakType.short, 2, 200, 11, 51, 9, 4⟩] := by
  norm_num [segmentAll, segmentBatchSingle, segmentBatchDouble, segmentTripSingle,
    segEdgesSingle, alistLookup, singleType, tripC9, lkC9]

/-- Claim C8: determinism of segmentation — the segmented output is a
function of the trip records, the network lookup, the threshold and
the jitter stream determined by the RNG seed; two runs on identical
inputs with identical streams agree. -/
theorem segmentation_deterministic (lk1 lk2 : NetworkLookup) (thr1 thr2 : ℚ)
    (rng1 rng2 : Nat → Int) (s1 s2 d1 d2 : List Trip)
    (hlk : lk1 = lk2) (hthr : thr1 = thr2) (hrng : rng1 = rng2)
    (hs : s1 = s2) (hd : d1 = d2) :
    segmentAll lk1 thr1 rng1 s1 d1 = segmentAll lk2 thr2 rng2 s2 d2 := by
  subst hlk hthr hrng hs hd
  rfl

/-- Witness for segmentation_deterministic at a concrete run. -/
theorem segmentation_deterministic_witness :
    segmentAll lkC9 360 (fun _ => 0) [tripC9] [] =
      segmentAll lkC9 360 (fun _ => 0) [tripC9] [] :=
  segmentation_deterministic lkC9 lkC9 360 360 (fun _ => 0) (fun _ => 0)
    [tripC9] [tripC9] [] [] rfl rfl rfl rfl rfl

/-- If some edge id of the remaining path is absent from the
edge-length dictionary, the single-driver trip loop ends in a
KeyError. -/
lemma segEdgesSingle_missing_edge (lk : NetworkLookup) (thr : ℚ) (rng : Nat → Int)
    (tid : Nat) (vc : ℚ) :
    ∀ (edges : List Nat) (travel : ℚ) (brks draw : Nat),
      (∃ e ∈ edges, alistLookup e lk.edgeLength = none) →
      ∃ err, segEdgesSingle lk thr rng tid vc edges travel brks draw = Except.error err := by
  intro edges
  induction edges with
  | nil =>
    intro travel brks draw h
    rcases h with ⟨e, he, _⟩
    simp at he
  | cons e rest ih =>
    intro travel brks draw h
    rcases h with ⟨e2, he2, hnone⟩
    cases hE : alistLookup e lk.edgeLength with
    | none => exact ⟨SegError.keyError e, by simp [segEdgesSingle, hE]⟩
    | some len =>
      have hrest : ∃ x ∈ rest, alistLookup x lk.edgeLength = none := by
        rcases List.mem_cons.mp he2 with h1 | h1
        · subst h1; rw [hnone] at hE; cases hE
        · exact ⟨e2, h1, hnone⟩
      simp only [segEdgesSingle, hE]
      by_cases hc : travel + len > thr + (rng draw : ℚ)
      · rw [if_pos hc]
        cases hNB : alistLookup e lk.edgeNodeB with
        | none => exact ⟨SegError.keyError e, by simp [hNB]⟩
        | some nb =>
          cases hLa : alistLookup nb lk.nodeLat with
          | none => exact ⟨SegError.keyError nb, by simp [hNB, hLa]⟩
          | some la =>
            cases hLo : alistLookup nb lk.nodeLon with
            | none => exact ⟨SegError.keyError nb, by simp [hNB, hLa, hLo]⟩
            | some lo =>
              rcases ih 0 (brks + 1) (draw + 1) hrest with ⟨err, herr⟩
              exact ⟨err, by simp [hNB, hLa, hLo, herr]⟩
      · rw [if_neg hc]
        exact ih (travel + len) brks (draw + 1) hrest

/-- Claim C2 (amended): an edge id absent from the edge-length lookup
is not isolated to its trip — as soon as the loop reaches the bad
trip, the KeyError propagates and the whole batch segmentation ends
in an error, so the remaining trips are not processed at all. -/
theorem unknown_edge_aborts_batch (lk : NetworkLookup) (thr : ℚ) (rng : Nat → Int)
    (t : Trip) (ts : List Trip) (idx draw : Nat)
    (h : ∃ e ∈ t.edgePath, alistLookup e lk.edgeLength = none) :
    ∃ err, segmentBatchSingle lk thr rng (t :: ts) idx draw = Except.error err := by
  rcases segEdgesSingle_missing_edge lk thr rng idx t.vehicleCount t.edgePath
      t.entryDistance 0 draw h with ⟨err, herr⟩
  exact ⟨err, by simp [segmentBatchSingle, segmentTripSingle, herr]⟩

/-- Witness for unknown_edge_aborts_batch: the batch [badTrip, goodTrip]
over lkCE aborts. -/
theorem unknown_edge_aborts_batch_witness :
    ∃ err, segmentBatchSingle lkCE 360 (fun _ => 0) [badTrip, goodTrip] 0 0 =
      Except.error err :=
  unknown_edge_aborts_batch lkCE 360 (fun _ => 0) badTrip [goodTrip] 0 0
    ⟨99, by norm_num [badTrip], by norm_num [alistLookup, lkCE]⟩

/-- Counterexample to claim C2 as stated: with the bad trip present the
whole run returns a KeyError and produces no events at all, while the
same run without the bad trip emits one event for the remaining trip;
segmentation does not continue past the offending trip. -/
theorem unknown_edge_not_isolated :
    segmentAll lkCE 360 (fun _ => 0) [badTrip, goodTrip] [] =
      Except.error (SegError.keyError 99) ∧
    segmentAll lkCE 360 (fun _ => 0) [goodTrip] [] =
      Except.ok [⟨0, 1, 1, BreakType.short, 2, 500, 10, 50, 8, 7⟩] := by
  constructor <;>
    norm_num [segmentAll, segmentBatchSingle, segmentBatchDouble, segmentTripSingle,
      segEdgesSingle, alistLookup, singleType, badTrip, goodTrip, lkCE]

/-- Claim C7 (amended): with an empty facility list every nonempty
event sequence makes the pass abort — the first event falls into the
nearest-fallback branch, where idxmin of the empty distance series
raises — and no per-facility result is produced. -/
theorem empty_facilities_abort (cat : Catchments) (evs : List BreakPoint)
    (hc : cat.centers = []) (hevs : evs ≠ []) :
    assign_breaks_to_points cat evs = Except.error AssignError.emptyIdxmin := by
  cases evs with
  | nil => exact absurd rfl hevs
  | cons ev rest =>
    simp [assign_breaks_to_points, hc, assignPass, assignStep, containedIndices,
      distList, firstMinIdx]

/-- Witness for empty_facilities_abort at a concrete event. -/
theorem empty_facilities_abort_witness :
    assign_breaks_to_points ⟨[], 40000⟩ [⟨⟨0, 0⟩, 3⟩] =
      Except.error AssignError.emptyIdxmin :=
  empty_facilities_abort ⟨[], 40000⟩ [⟨⟨0, 0⟩, 3⟩] rfl (by simp)

/-- Counterexample to claim C7 as stated: with an empty facility list
and an empty event sequence the pass does not abort — it completes
and returns the empty per-facility counter list. -/
theorem empty_facilities_empty_events_ok :
    assign_breaks_to_points ⟨[], 40000⟩ [] = Except.ok [] := by
  norm_num [assign_breaks_to_points, assignPass]

/-- Break numbering and typing invariant of the single-driver loop:
starting from break counter brks, the i-th emitted event carries
break number brks + i + 1 and the single-driver type of that
number. -/
lemma segEdgesSingle_fields (lk : NetworkLookup) (thr : ℚ) (rng : Nat → Int)
    (tid : Nat) (vc : ℚ) :
    ∀ (edges : List Nat) (travel : ℚ) (brks draw : Nat) (evs : List BreakEvent) (dEnd : Nat),
      segEdgesSingle lk thr rng tid vc edges travel brks draw = Except.ok (evs, dEnd) →
      ∀ i (hi : i < evs.length),
        (evs.get ⟨i, hi⟩).breakNr = brks + i + 1 ∧
        (evs.get ⟨i, hi⟩).breakType = singleType (brks + i + 1) := by
  intro edges
  induction edges with
  | nil =>
    intro travel brks draw evs dEnd h i hi
    simp only [segEdgesSingle, Except.ok.injEq, Prod.mk.injEq] at h
    obtain ⟨h1, h2⟩ := h
    subst h1
    simp at hi
  | cons e rest ih =>
    intro travel brks draw evs dEnd h i hi
    simp only [segEdgesSingle] at h
    split at h
    · exact absurd h (by simp)
    · rename_i len hE
      split at h
      · split at h
        · exact absurd h (by simp)
        · rename_i nb hNB
          split at h
          · exact absurd h (by simp)
          · rename_i la hLa
            split at h
            · exact absurd h (by simp)
            · rename_i lo hLo
              split at h
              · exact absurd h (by simp)
              · rename_i evs2 d2 hrec
                simp only [Except.ok.injEq, Prod.mk.injEq] at h
                obtain ⟨h1, h2⟩ := h
                subst h1
                cases i with
                | zero =>
                  constructor
                  · simp
                  · simp
                | succ i2 =>
                  have hi2 : i2 < evs2.length := by
                    simpa using hi
                  have hfield := ih 0 (brks + 1) (draw + 1) evs2 d2 hrec i2 hi2
                  have harith : brks + 1 + i2 + 1 = brks + (i2 + 1) + 1 := by omega
                  rw [harith] at hfield
                  simpa using hfield
      · exact ih (travel + len) brks (draw + 1) evs dEnd h i hi

/-- Claim C3: single-driver alternation — in any completed
single-driver trip the k-th emitted break event (k counted from 1,
here k = i + 1 for position i) is short when k is odd and long when
k is even, so the type sequence alternates short, long, short,
long, starting with short. -/
theorem single_driver_alternation (lk : NetworkLookup) (thr : ℚ) (rng : Nat → Int)
    (tid : Nat) (t : Trip) (draw dEnd : Nat) (evs : List BreakEvent)
    (h : segmentTripSingle lk thr rng tid t draw = Except.ok (evs, dEnd))
    (i : Nat) (hi : i < evs.length) :
    (evs.get ⟨i, hi⟩).breakType =
      if (i + 1) % 2 = 1 then BreakType.short else BreakType.long := by
  have hfield := (segEdgesSingle_fields lk thr rng tid t.vehicleCount t.edgePath
      t.entryDistance 0 draw evs dEnd h i hi).2
  simpa [singleType] using hfield

/-- A one-edge network: edge 1, length 400, leading to node 10. -/
def lkLoop : NetworkLookup :=
  { edgeLength := [(1, 400)]
    edgeNodeB := [(1, 10)]
    nodeLat := [(10, 50)]
    nodeLon := [(10, 8)] }

/-- Witness for single_driver_alternation: a two-break trip over
lkLoop; its second event is long. -/
theorem single_driver_alternation_witness :
    (([⟨0, 1, 1, BreakType.short, 1, 400, 10, 50, 8, 1⟩,
       ⟨0, 1, 2, BreakType.long, 1, 400, 10, 50, 8, 1⟩] : List BreakEvent).get
        ⟨1, by norm_num⟩).breakType =
      if (1 + 1) % 2 = 1 then BreakType.short else BreakType.long :=
  single_driver_alternation lkLoop 360 (fun _ => 0) 0 ⟨[1, 1], 0, 1⟩ 0 2
    [⟨0, 1, 1, BreakType.short, 1, 400, 10, 50, 8, 1⟩,
     ⟨0, 1, 2, BreakType.long, 1, 400, 10, 50, 8, 1⟩]
    (by norm_num [segmentTripSingle, segEdgesSingle, alistLookup, singleType, lkLoop])
    1 (by norm_num)

/-- Iteration of the breaks_reset update across emitted events. -/
def doubleIter : Nat → Nat → Nat
  | 0, r => r
  | i + 1, r => doubleIter i (doubleNext r)

/-- From any start value at most 3, the iterated breaks_reset counter
cycles with period 4. -/
lemma doubleIter_mod : ∀ (i r : Nat), r ≤ 3 → doubleIter i r = (r + i) % 4 := by
  intro i
  induction i with
  | zero =>
    intro r hr
    simp only [doubleIter]
    omega
  | succ i ih =>
    intro r hr
    simp only [doubleIter]
    by_cases h2 : r ≤ 2
    · rw [show doubleNext r = r + 1 from if_pos h2]
      rw [ih (r + 1) (by omega)]
      omega
    · rw [show doubleNext r = 0 from if_neg h2]
      rw [ih 0 (by omega)]
      omega

/-- Typing invariant of the double-driver loop: starting from
breaks_reset value rst, the i-th emitted event carries the type
determined by iterating the reset update i times from rst. -/
lemma segEdgesDouble_fields (lk : NetworkLookup) (thr : ℚ) (rng : Nat → Int)
    (tid : Nat) (vc : ℚ) :
    ∀ (edges : List Nat) (travel : ℚ) (brks rst draw : Nat)
      (evs : List BreakEvent) (dEnd : Nat),
      segEdgesDouble lk thr rng tid vc edges travel brks rst draw = Except.ok (evs, dEnd) →
      ∀ i (hi : i < evs.length),
        (evs.get ⟨i, hi⟩).breakType = doubleType (doubleIter i rst) := by
  intro edges
  induction edges with
  | nil =>
    intro travel brks rst draw evs dEnd h i hi
    simp only [segEdgesDouble, Except.ok.injEq, Prod.mk.injEq] at h
    obtain ⟨h1, h2⟩ := h
    subst h1
    simp at hi
  | cons e rest ih =>
    intro travel brks rst draw evs dEnd h i hi
    simp only [segEdgesDouble] at h
    split at h
    · exact absurd h (by simp)
    · rename_i len hE
      split at h
      · split at h
        · exact absurd h (by simp)
        · rename_i nb hNB
          split at h
          · exact absurd h (by simp)
          · rename_i la hLa
            split at h
            · exact absurd h (by simp)
            · rename_i lo hLo
              split at h
              · exact absurd h (by simp)
              · rename_i evs2 d2 hrec
                simp only [Except.ok.injEq, Prod.mk.injEq] at h
                obtain ⟨h1, h2⟩ := h
                subst h1
                cases i with
                | zero => simp [doubleIter]
                | succ i2 =>
                  have hi2 : i2 < evs2.length := by
                    simpa using hi
                  have hfield := ih 0 (brks + 1) (doubleNext rst) (draw + 1) evs2 d2 hrec i2 hi2
                  simpa [doubleIter] using hfield
      · exact ih (travel + len) brks rst (draw + 1) evs dEnd h i hi

/-- Claim C4: double-driver alternation — in any completed
double-driver trip, with breaks_reset starting at 0, the event at
position i (0-based) is short when i mod 4 is at most 2 and long
otherwise, so the type sequence is the repeating pattern short,
short, short, long. -/
theorem double_driver_alternation (lk : NetworkLookup) (thr : ℚ) (rng : Nat → Int)
    (tid : Nat) (t : Trip) (draw dEnd : Nat) (evs : List BreakEvent)
    (h : segmentTripDouble lk thr rng tid t draw = Except.ok (evs, dEnd))
    (i : Nat) (hi : i < evs.length) :
    (evs.get ⟨i, hi⟩).breakType =
      if i % 4 ≤ 2 then BreakType.short else BreakType.long := by
  have hfield := segEdgesDouble_fields lk thr rng tid t.vehicleCount t.edgePath
      t.entryDistance 0 0 draw evs dEnd h i hi
  rw [hfield, doubleIter_mod i 0 (by omega)]
  simp [doubleType]

/-- Witness for double_driver_alternation: a four-break trip over
lkLoop; its fourth event is long. -/
theorem double_driver_alternation_witness :
    (([⟨0, 2, 1, BreakType.short, 1, 400, 10, 50, 8, 1⟩,
       ⟨0, 2, 2, BreakType.short, 1, 400, 10, 50, 8, 1⟩,
       ⟨0, 2, 3, BreakType.short, 1, 400, 10, 50, 8, 1⟩,
       ⟨0, 2, 4, BreakType.long, 1, 400, 10, 50, 8, 1⟩] : List BreakEvent).get
        ⟨3, by norm_num⟩).breakType =
      if 3 % 4 ≤ 2 then BreakType.short else BreakType.long :=
  double_driver_alternation lkLoop 360 (fun _ => 0) 0 ⟨[1, 1, 1, 1], 0, 1⟩ 0 4
    [⟨0, 2, 1, BreakType.short, 1, 400, 10, 50, 8, 1⟩,
     ⟨0, 2, 2, BreakType.short, 1, 400, 10, 50, 8, 1⟩,
     ⟨0, 2, 3, BreakType.short, 1, 400, 10, 50, 8, 1⟩,
     ⟨0, 2, 4, BreakType.long, 1, 400, 10, 50, 8, 1⟩]
    (by norm_num [segmentTripDouble, segEdgesDouble, alistLookup, doubleType, doubleNext, lkLoop])
    3 (by norm_num)

/-- addAt keeps the length of the counter list. -/
lemma length_addAt (l : List ℚ) (j : Nat) (c : ℚ) : (addAt l j c).length = l.length := by
  simp [addAt]

/-- addAt at an in-range index adds the count to the list total. -/
lemma sum_addAt : ∀ (l : List ℚ) (j : Nat) (c : ℚ), j < l.length →
    (addAt l j c).sum = l.sum + c := by
  intro l
  induction l with
  | nil => intro j c h; simp at h
  | cons a l ih =>
    intro j c h
    cases j with
    | zero =>
      simp [addAt]
      ring
    | succ j =>
      have hj : j < l.length := by simpa using h
      have hrec := ih j c hj
      simp only [addAt, List.set_cons_succ, List.getD_cons_succ, List.sum_cons] at hrec ⊢
      rw [hrec]
      ring

/-- Series.idxmin never fails on a nonempty series. -/
lemma firstMinIdx_cons_ne_none (x : ℚ) (xs : List ℚ) : firstMinIdx (x :: xs) ≠ none := by
  simp only [firstMinIdx]
  split
  · simp
  · split <;> simp

/-- Series.idxmin returns an in-range index. -/
lemma firstMinIdx_lt : ∀ (l : List ℚ) (k : Nat), firstMinIdx l = some k → k < l.length := by
  intro l
  induction l with
  | nil => intro k h; simp [firstMinIdx] at h
  | cons x xs ih =>
    intro k h
    simp only [firstMinIdx] at h
    split at h
    · simp only [Option.some.injEq] at h
      simp [← h]
    · rename_i k2 hk2
      split at h
      · simp only [Option.some.injEq] at h
        have := ih k2 hk2
        simp [← h]
        omega
      · simp only [Option.some.injEq] at h
        simp [← h]

/-- Series.idxmin returns the position of a minimal value. -/
lemma firstMinIdx_min : ∀ (l : List ℚ) (k : Nat), firstMinIdx l = some k →
    ∀ i, i < l.length → l.getD k 0 ≤ l.getD i 0 := by
  intro l
  induction l with
  | nil => intro k h; simp [firstMinIdx] at h
  | cons x xs ih =>
    intro k h i hi
    simp only [firstMinIdx] at h
    split at h
    · rename_i hnone
      have hxs : xs = [] := by
        cases xs with
        | nil => rfl
        | cons y ys => exact absurd hnone (firstMinIdx_cons_ne_none y ys)
      subst hxs
      simp only [Option.some.injEq] at h
      subst h
      simp at hi
      subst hi
      simp
    · rename_i k2 hk2
      split at h
      · rename_i hlt
        simp only [Option.some.injEq] at h
        subst h
        cases i with
        | zero => simpa using le_of_lt hlt
        | succ i2 =>
          have hi2 : i2 < xs.length := by simpa using hi
          simpa using ih k2 hk2 i2 hi2
      · rename_i hge
        simp only [Option.some.injEq] at h
        subst h
        cases i with
        | zero => simp
        | succ i2 =>
          have hi2 : i2 < xs.length := by simpa using hi
          have h1 : x ≤ xs.getD k2 0 := le_of_not_lt hge
          have h2 := ih k2 hk2 i2 hi2
          simpa using le_trans h1 h2

/-- One comparison step of the selection loop, folded over the
contained indices: keep the previous choice unless the candidate has
a strictly smaller counter. -/
def selStep (results : List ℚ) (a j : Nat) : Nat :=
  if results.getD j 0 < results.getD a 0 then j else a

/-- Once a selection is made, the selection loop is the left fold of
selStep: the running minimum always equals the counter of the
current selection. -/
lemma selLoop_foldl (results : List ℚ) :
    ∀ (l : List Nat) (s : Nat),
      selLoop results l (some (results.getD s 0)) (some s) =
        some (l.foldl (selStep results) s) := by
  intro l
  induction l with
  | nil => intro s; rfl
  | cons j js ih =>
    intro s
    simp only [selLoop, List.foldl, selStep]
    by_cases hc : results.getD j 0 < results.getD s 0
    · rw [if_pos hc, if_pos hc, ih j]
    · rw [if_neg hc, if_neg hc, ih s]

/-- On a nonempty index list the selection loop always selects: the
first candidate replaces the initial None. -/
lemma selLoop_entry (results : List ℚ) (j : Nat) (js : List Nat) :
    selLoop results (j :: js) none none = some (js.foldl (selStep results) j) := by
  simp only [selLoop]
  exact selLoop_foldl results js j

/-- The folded selection is the start index or one of the list. -/
lemma foldl_selStep_mem (results : List ℚ) :
    ∀ (l : List Nat) (s : Nat),
      l.foldl (selStep results) s = s ∨ l.foldl (selStep results) s ∈ l := by
  intro l
  induction l with
  | nil => intro s; left; rfl
  | cons j js ih =>
    intro s
    simp only [List.foldl]
    rcases ih (selStep results s j) with h | h
    · rw [h]
      by_cases hc : results.getD j 0 < results.getD s 0
      · right
        rw [show selStep results s j = j from if_pos hc]
        exact List.mem_cons_self j js
      · left
        exact if_neg hc
    · right
      exact List.mem_cons_of_mem j h

/-- Over a strictly increasing index list the folded selection holds
a minimal counter, and every index with an equal counter is at least
the selection: the loop keeps the first minimum. -/
lemma foldl_selStep_spec (results : List ℚ) :
    ∀ (l : List Nat) (s : Nat), (s :: l).Pairwise (· < ·) →
      (∀ i, (i = s ∨ i ∈ l) →
        results.getD (l.foldl (selStep results) s) 0 ≤ results.getD i 0) ∧
      (∀ i, (i = s ∨ i ∈ l) →
        results.getD i 0 = results.getD (l.foldl (selStep results) s) 0 →
        l.foldl (selStep results) s ≤ i) := by
  intro l
  induction l with
  | nil =>
    intro s hp
    constructor
    · intro i hi
      rcases hi with h | h
      · subst h; exact le_refl _
      · simp at h
    · intro i hi heq
      rcases hi with h | h
      · subst h; exact le_refl _
      · simp at h
  | cons j js ih =>
    intro s hp
    simp only [List.foldl]
    have hsj : s < j := (List.pairwise_cons.mp hp).1 j (List.mem_cons_self j js)
    have hsjs : ∀ b ∈ js, s < b := fun b hb =>
      (List.pairwise_cons.mp hp).1 b (List.mem_cons_of_mem j hb)
    have hp2 : (j :: js).Pairwise (· < ·) := (List.pairwise_cons.mp hp).2
    have hjjs : ∀ b ∈ js, j < b := (List.pairwise_cons.mp hp2).1
    have hpjs : js.Pairwise (· < ·) := (List.pairwise_cons.mp hp2).2
    by_cases hc : results.getD j 0 < results.getD s 0
    · have hstep : selStep results s j = j := if_pos hc
      rw [hstep]
      obtain ⟨hmin, htie⟩ := ih j (List.pairwise_cons.mpr ⟨hjjs, hpjs⟩)
      constructor
      · intro i hi
        rcases hi with h | h
        · subst h
          have h1 := hmin j (Or.inl rfl)
          linarith
        · rcases List.mem_cons.mp h with h2 | h2
          · subst h2; exact hmin i (Or.inl rfl)
          · exact hmin i (Or.inr h2)
      · intro i hi heq
        rcases hi with h | h
        · subst h
          have h1 := hmin j (Or.inl rfl)
          linarith
        · rcases List.mem_cons.mp h with h2 | h2
          · subst h2; exact htie i (Or.inl rfl) heq
          · exact htie i (Or.inr h2) heq
    · have hstep : selStep results s j = s := if_neg hc
      rw [hstep]
      have hsle : results.getD s 0 ≤ results.getD j 0 := le_of_not_lt hc
      obtain ⟨hmin, htie⟩ := ih s (List.pairwise_cons.mpr ⟨hsjs, hpjs⟩)
      constructor
      · intro i hi
        rcases hi with h | h
        · subst h; exact hmin i (Or.inl rfl)
        · rcases List.mem_cons.mp h with h2 | h2
          · subst h2
            have h1 := hmin s (Or.inl rfl)
            linarith
          · exact hmin i (Or.inr h2)
      · intro i hi heq
        rcases hi with h | h
        · subst h; exact htie i (Or.inl rfl) heq
        · rcases List.mem_cons.mp h with h2 | h2
          · subst h2
            rcases foldl_selStep_mem results js s with hm | hm
            · rw [hm]
              exact le_of_lt hsj
            · have h3 : i < js.foldl (selStep results) s := hjjs _ hm
              have h4 := hmin s (Or.inl rfl)
              have h5 : results.getD s 0 =
                  results.getD (js.foldl (selStep results) s) 0 := by linarith
              have h6 := htie s (Or.inl rfl) h5
              omega
          · exact htie i (Or.inr h2) heq

/-- Contained indices are in range of the facility list. -/
lemma mem_containedIndices_lt (cat : Catchments) (p : Point) (j : Nat)
    (h : j ∈ containedIndices cat p) : j < cat.centers.length := by
  have hm := (List.mem_filter.mp h).1
  simpa using hm

/-- np.where returns indices in increasing order. -/
lemma containedIndices_pairwise (cat : Catchments) (p : Point) :
    (containedIndices cat p).Pairwise (· < ·) :=
  List.Pairwise.filter _ (List.pairwise_lt_range _)

/-- Characterisation of the multiple-containment branch: the selected
index is contained, carries a minimal counter, is first among equal
counters, and receives the count. -/
lemma assignStep_multi (cat : Catchments) (results : List ℚ) (ev : BreakPoint)
    (h2 : 2 ≤ (containedIndices cat ev.loc).length) :
    ∃ sel, sel ∈ containedIndices cat ev.loc ∧
      (∀ j ∈ containedIndices cat ev.loc, results.getD sel 0 ≤ results.getD j 0) ∧
      (∀ j ∈ containedIndices cat ev.loc, results.getD j 0 = results.getD sel 0 → sel ≤ j) ∧
      assignStep cat results ev = Except.ok (addAt results sel ev.count) := by
  rcases hl : containedIndices cat ev.loc with _ | ⟨j, _ | ⟨j2, js⟩⟩
  · rw [hl] at h2; simp at h2
  · rw [hl] at h2; simp at h2
  · have hpair : (j :: j2 :: js).Pairwise (· < ·) := by
      rw [← hl]; exact containedIndices_pairwise cat ev.loc
    obtain ⟨hmin, htie⟩ := foldl_selStep_spec results (j2 :: js) j hpair
    have hmem := foldl_selStep_mem results (j2 :: js) j
    refine ⟨(j2 :: js).foldl (selStep results) j, ?_, ?_, ?_, ?_⟩
    · rcases hmem with h | h
      · rw [h]; exact List.mem_cons_self _ _
      · exact List.mem_cons_of_mem _ h
    · intro i hi
      exact hmin i (List.mem_cons.mp hi)
    · intro i hi heq
      exact htie i (List.mem_cons.mp hi) heq
    · simp only [assignStep, hl]
      rw [selLoop_entry]

/-- Every successful step adds the event count at one in-range
index. -/
lemma assignStep_ok_addAt (cat : Catchments) (results : List ℚ) (ev : BreakPoint)
    (out : List ℚ) (hlen : results.length = cat.centers.length)
    (h : assignStep cat results ev = Except.ok out) :
    ∃ j, j < results.length ∧ out = addAt results j ev.count := by
  rcases hl : containedIndices cat ev.loc with _ | ⟨j, _ | ⟨j2, js⟩⟩
  · simp only [assignStep, hl] at h
    split at h
    · exact absurd h (by simp)
    · rename_i k hfm
      simp only [Except.ok.injEq] at h
      have hk := firstMinIdx_lt _ k hfm
      have hdl : (distList cat ev.loc).length = cat.centers.length := by simp [distList]
      exact ⟨k, by omega, h.symm⟩
  · simp only [assignStep, hl, Except.ok.injEq] at h
    have hj : j < cat.centers.length :=
      mem_containedIndices_lt cat ev.loc j (by rw [hl]; exact List.mem_cons_self _ _)
    exact ⟨j, by omega, h.symm⟩
  · simp only [assignStep, hl] at h
    rw [selLoop_entry] at h
    simp only [Except.ok.injEq] at h
    have hmem := foldl_selStep_mem results (j2 :: js) j
    have hlt : (j2 :: js).foldl (selStep results) j < cat.centers.length := by
      rcases hmem with h2 | h2
      · rw [h2]
        exact mem_containedIndices_lt cat ev.loc j (by rw [hl]; exact List.mem_cons_self _ _)
      · exact mem_containedIndices_lt cat ev.loc _
          (by rw [hl]; exact List.mem_cons_of_mem _ h2)
    exact ⟨(j2 :: js).foldl (selStep results) j, by omega, h.symm⟩

/-- A completed pass adds the total event count to the counter
total. -/
lemma assignPass_sum (cat : Catchments) :
    ∀ (evs : List BreakPoint) (results final : List ℚ),
      results.length = cat.centers.length →
      assignPass cat results evs = Except.ok final →
      final.sum = results.sum + (evs.map BreakPoint.count).sum := by
  intro evs
  induction evs with
  | nil =>
    intro results final hlen h
    simp only [assignPass, Except.ok.injEq] at h
    subst h
    simp
  | cons ev evs ih =>
    intro results final hlen h
    simp only [assignPass] at h
    split at h
    · exact absurd h (by simp)
    · rename_i mid hstep
      obtain ⟨j, hj, hout⟩ := assignStep_ok_addAt cat results ev mid hlen hstep
      subst hout
      have hlen2 : (addAt results j ev.count).length = cat.centers.length := by
        rw [length_addAt]; exact hlen
      have hrec := ih (addAt results j ev.count) final hlen2 h
      rw [hrec, sum_addAt results j ev.count hj]
      simp only [List.map_cons, List.sum_cons]
      ring

/-- Entries of the distance series are the distances to the
centers. -/
lemma distList_getD (cat : Catchments) (p : Point) (i : Nat) (h : i < cat.centers.length) :
    (distList cat p).getD i 0 = sqDist p (cat.centers.getD i ⟨0, 0⟩) := by
  rw [List.getD_eq_getElem _ _ (by simpa [distList] using h), List.getD_eq_getElem _ _ h]
  simp [distList]

/-- Claim C1: conservation of demand — whenever an assignment pass
completes, the sum of the returned per-facility counters equals the
sum of the Break_Number counts over all input events: every event is
added to exactly one facility counter. -/
theorem assignment_conservation (cat : Catchments) (evs : List BreakPoint) (final : List ℚ)
    (h : assign_breaks_to_points cat evs = Except.ok final) :
    final.sum = (evs.map BreakPoint.count).sum := by
  have hlen : (List.replicate cat.centers.length (0 : ℚ)).length = cat.centers.length := by
    simp
  have hsum := assignPass_sum cat evs (List.replicate cat.centers.length 0) final hlen h
  simpa using hsum

/-- Two overlapping discs of radius 10 around (0,0) and (1,0). -/
def catT : Catchments := ⟨[⟨0, 0⟩, ⟨1, 0⟩], 10⟩

/-- Witness for assignment_conservation: a completed two-event pass
over catT. -/
theorem assignment_conservation_witness :
    (([3, 4] : List ℚ)).sum =
      (([⟨⟨0, 0⟩, 3⟩, ⟨⟨50, 50⟩, 4⟩] : List BreakPoint).map BreakPoint.count).sum :=
  assignment_conservation catT [⟨⟨0, 0⟩, 3⟩, ⟨⟨50, 50⟩, 4⟩] [3, 4]
    (by norm_num [assign_breaks_to_points, assignPass, assignStep, containedIndices,
      containsIdx, sqDist, selLoop, addAt, firstMinIdx, distList, catT,
      List.range, List.range.loop, List.replicate])

/-- Claim C5: greedy load balancing with immediate visibility — for an
event contained in two or more catchment discs, the count goes to a
contained facility whose running counter is minimal at that moment,
with ties broken by the smallest facility index, and the loop
continues with the incremented counter list, so later events of the
pass observe the update. -/
theorem greedy_load_balancing (cat : Catchments) (results : List ℚ) (ev : BreakPoint)
    (h2 : 2 ≤ (containedIndices cat ev.loc).length) :
    ∃ sel, sel ∈ containedIndices cat ev.loc ∧
      (∀ j ∈ containedIndices cat ev.loc, results.getD sel 0 ≤ results.getD j 0) ∧
      (∀ j ∈ containedIndices cat ev.loc, results.getD j 0 = results.getD sel 0 → sel ≤ j) ∧
      assignStep cat results ev = Except.ok (addAt results sel ev.count) ∧
      ∀ evs, assignPass cat results (ev :: evs) =
        assignPass cat (addAt results sel ev.count) evs := by
  obtain ⟨sel, hmem, hmin, htie, hstep⟩ := assignStep_multi cat results ev h2
  refine ⟨sel, hmem, hmin, htie, hstep, fun evs => ?_⟩
  simp only [assignPass, hstep]

/-- Witness for greedy_load_balancing: both discs of catT contain the
origin; with counters [5, 2] the second facility receives the
count. -/
theorem greedy_load_balancing_witness :
    ∃ sel, sel ∈ containedIndices catT (⟨0, 0⟩ : Point) ∧
      (∀ j ∈ containedIndices catT (⟨0, 0⟩ : Point),
        ([5, 2] : List ℚ).getD sel 0 ≤ ([5, 2] : List ℚ).getD j 0) ∧
      (∀ j ∈ containedIndices catT (⟨0, 0⟩ : Point),
        ([5, 2] : List ℚ).getD j 0 = ([5, 2] : List ℚ).getD sel 0 → sel ≤ j) ∧
      assignStep catT [5, 2] ⟨⟨0, 0⟩, 3⟩ = Except.ok (addAt [5, 2] sel 3) ∧
      ∀ evs, assignPass catT [5, 2] (⟨⟨0, 0⟩, 3⟩ :: evs) =
        assignPass catT (addAt [5, 2] sel 3) evs :=
  greedy_load_balancing catT [5, 2] ⟨⟨0, 0⟩, 3⟩
    (by norm_num [containedIndices, containsIdx, sqDist, catT, List.range, List.range.loop])

/-- Claim C10: totality of the containment selection — for an event
whose containment set is nonempty the step never fails: some
contained facility is selected (in the multiple-containment branch
the selection loop, started from None with an infinite running
minimum, necessarily overwrites the selection on its first
candidate) and exactly one counter receives the count. -/
theorem containment_selection_total (cat : Catchments) (results : List ℚ) (ev : BreakPoint)
    (h : containedIndices cat ev.loc ≠ []) :
    ∃ sel, sel ∈ containedIndices cat ev.loc ∧
      assignStep cat results ev = Except.ok (addAt results sel ev.count) := by
  rcases hl : containedIndices cat ev.loc with _ | ⟨j, _ | ⟨j2, js⟩⟩
  · exact absurd hl h
  · refine ⟨j, List.mem_cons_self _ _, ?_⟩
    simp only [assignStep, hl]
  · refine ⟨(j2 :: js).foldl (selStep results) j, ?_, ?_⟩
    · rcases foldl_selStep_mem results (j2 :: js) j with h2 | h2
      · rw [h2]; exact List.mem_cons_self _ _
      · exact List.mem_cons_of_mem _ h2
    · simp only [assignStep, hl]
      rw [selLoop_entry]

/-- Two distant discs of radius 10 around (0,0) and (100,0). -/
def catS : Catchments := ⟨[⟨0, 0⟩, ⟨100, 0⟩], 10⟩

/-- Witness for containment_selection_total: the origin lies in
exactly one disc of catS. -/
theorem containment_selection_total_witness :
    ∃ sel, sel ∈ containedIndices catS (⟨0, 0⟩ : Point) ∧
      assignStep catS [7, 9] ⟨⟨0, 0⟩, 2⟩ = Except.ok (addAt [7, 9] sel 2) :=
  containment_selection_total catS [7, 9] ⟨⟨0, 0⟩, 2⟩
    (by norm_num [containedIndices, containsIdx, sqDist, catS, List.range, List.range.loop])

/-- Claim C6: nearest fallback on empty containment — an event
contained in no catchment disc (zero radius included, with no error)
is assigned to a facility at minimal distance from the event
location, and the choice does not depend on the running counters: no
load balancing happens in this branch. -/
theorem nearest_fallback_assignment (cat : Catchments) (ev : BreakPoint)
    (hempty : containedIndices cat ev.loc = []) (hne : cat.centers ≠ []) :
    ∃ j, j < cat.centers.length ∧
      (∀ i, i < cat.centers.length →
        sqDist ev.loc (cat.centers.getD j ⟨0, 0⟩) ≤ sqDist ev.loc (cat.centers.getD i ⟨0, 0⟩)) ∧
      ∀ results, assignStep cat results ev = Except.ok (addAt results j ev.count) := by
  have hdne : distList cat ev.loc ≠ [] := by simp [distList, hne]
  cases hfm : firstMinIdx (distList cat ev.loc) with
  | none =>
    cases hd : distList cat ev.loc with
    | nil => exact absurd hd hdne
    | cons x xs => rw [hd] at hfm; exact absurd hfm (firstMinIdx_cons_ne_none x xs)
  | some k =>
    have hk : k < (distList cat ev.loc).length := firstMinIdx_lt _ k hfm
    have hkc : k < cat.centers.length := by simpa [distList] using hk
    refine ⟨k, hkc, ?_, ?_⟩
    · intro i hi
      have hle := firstMinIdx_min _ k hfm i (by simpa [distList] using hi)
      rwa [distList_getD cat ev.loc k hkc, distList_getD cat ev.loc i hi] at hle
    · intro results
      simp only [assignStep, hempty, hfm]

/-- Two zero-radius discs: no point is ever contained. -/
def catZ : Catchments := ⟨[⟨0, 0⟩, ⟨1, 0⟩], 0⟩

/-- Witness for nearest_fallback_assignment: with radius zero no disc
contains the origin and the fallback applies. -/
theorem nearest_fallback_assignment_witness :
    ∃ j, j < catZ.centers.length ∧
      (∀ i, i < catZ.centers.length →
        sqDist (⟨0, 0⟩ : Point) (catZ.centers.getD j ⟨0, 0⟩) ≤
          sqDist (⟨0, 0⟩ : Point) (catZ.centers.getD i ⟨0, 0⟩)) ∧
      ∀ results, assignStep catZ results ⟨⟨0, 0⟩, 3⟩ = Except.ok (addAt results j 3) :=
  nearest_fallback_assignment catZ ⟨⟨0, 0⟩, 3⟩
    (by norm_num [containedIndices, containsIdx, sqDist, catZ, List.range, List.range.loop])
    (by simp [catZ])
